import Mathlib

/-!
Verification of the content-normalization pipeline of the `olga-front`
repository: the raw-record normalizer inside `getAllServices`, the
letter-grouping index builder `groupServicesByFirstLetter` (both in the
services page module), and the rich-text renderer `renderRichText`
(service detail page module).

The JavaScript values are embedded shallowly: fields that may be
`undefined`/`null` in the loosely-typed payload become `Option`s, JS
string falsiness (`undefined`, `null` and `""` are falsy) is made
explicit, and the one unguarded property access in the renderer
(`block.children.map`) is modelled with `Except`, since it is the only
place in the embedded code that can throw.
-/

namespace OlgaFront

/-! ## Data model (from the `Service` / `ImageData` types of the services page) -/

/-- One sized rendition of an image (`ImageFormat` in the source). -/
structure ImageFormat where
  url : String
deriving DecidableEq

/-- The optional size variants of an image (`formats` field in the source). -/
structure ImageFormats where
  thumbnail : Option ImageFormat
  small : Option ImageFormat
  medium : Option ImageFormat
  large : Option ImageFormat
deriving DecidableEq

/-- An image asset: a base `url` plus optional sized variants (`ImageData`). -/
structure ImageData where
  formats : ImageFormats
  url : String
deriving DecidableEq

/-- The canonical post-normalization service record (`Service` in the
services page module: `id`, `title`, `description`, `slug`, `image`). -/
structure Service where
  id : Nat
  title : String
  description : String
  slug : String
  image : List ImageData
deriving DecidableEq

/-- The service fields as they arrive from the content API: every field may
be missing (`undefined`/`null`), hence `Option`. `none` models a field that
is absent or `null`; `some ""` models a present-but-empty string. -/
structure RawFields where
  title : Option String
  description : Option String
  slug : Option String
  image : Option (List ImageData)
deriving DecidableEq

/-- One element of the raw `data` array. The payload shape varies: either a
wrapper `{ id, attributes: {...} }` (then `attributes` is `some _`) or a flat
record with the fields at top level (`attributes = none`, fields in `top`).
This mirrors `item.attributes || item` in the source, which falls back to the
item's own top-level fields whenever `attributes` is absent. -/
structure RawItem where
  id : Nat
  attributes : Option RawFields
  top : RawFields
deriving DecidableEq

/-! ## Content normalizer (from `getAllServices` in the services page) -/

/-- JS string defaulting `v || d`: the default is taken when the value is
missing (`undefined`/`null`) or the empty string, both falsy in JS. -/
def jsStrOr (v : Option String) (d : String) : String :=
  match v with
  | none => d
  | some s => if s = "" then d else s

/-- Decimal digit to its character, for the `service-${item.id}` template. -/
def digitToChar (d : Nat) : Char :=
  match d with
  | 0 => '0'
  | 1 => '1'
  | 2 => '2'
  | 3 => '3'
  | 4 => '4'
  | 5 => '5'
  | 6 => '6'
  | 7 => '7'
  | 8 => '8'
  | 9 => '9'
  | _ => '*'

/-- Big-endian decimal digit characters of a positive number, by structural
recursion on a fuel bound (any `fuel ≥ n` suffices, since the digit count
never exceeds `n`). -/
def decDigitsAux : Nat → Nat → List Char
  | _, 0 => []
  | 0, _ + 1 => []
  | fuel + 1, n + 1 =>
      decDigitsAux fuel ((n + 1) / 10) ++ [digitToChar ((n + 1) % 10)]

/-- Decimal representation of a natural number, as the JS template literal
`` `service-${item.id}` `` stringifies the numeric `id` (no sign, no leading
zeros). -/
def decimalRepr (n : Nat) : String :=
  if n = 0 then "0" else (decDigitsAux n n).asString

/-- The per-record transformation inside `getAllServices`:
`const serviceData = item.attributes || item;` followed by the record
literal with `||`-defaults for `title`, `description`, `slug`, `image`. -/
def normalizeItem (item : RawItem) : Service :=
  let serviceData := item.attributes.getD item.top
  { id := item.id
    title := jsStrOr serviceData.title "Без названия"
    description := jsStrOr serviceData.description ""
    slug := jsStrOr serviceData.slug ("service-" ++ decimalRepr item.id)
    image := serviceData.image.getD [] }

/-- The whole normalization step of `getAllServices`: `data.data.map(...)`.
(The surrounding fetch / HTTP error handling is out of scope: on any
transport failure the page receives `[]` and this function is applied to
an empty or absent batch only through that collaborator.) -/
def getAllServicesTransform (data : List RawItem) : List Service :=
  data.map normalizeItem

/-! ## Letter grouping (from `groupServicesByFirstLetter` in the services page) -/

/-- JS `String.prototype.toUpperCase`, restricted to the scripts the site's
data uses (ASCII and Cyrillic; titles are Russian). Lowercase ASCII and
lowercase Cyrillic а–я map up by 0x20, ё maps to Ё, everything else is
fixed. (Core `Char.toUpper` only handles ASCII, so the Cyrillic part of
the JS mapping is spelled out here.) -/
def jsToUpperChar (c : Char) : Char :=
  if 'a' ≤ c ∧ c ≤ 'z' then Char.ofNat (c.toNat - 32)
  else if 'а' ≤ c ∧ c ≤ 'я' then Char.ofNat (c.toNat - 32)
  else if c = 'ё' then 'Ё'
  else c

/-- The group key computed inside the `forEach`: `'#'` when the title is
falsy (for a normalized `Service`, title is a `String`, so falsy means
empty), otherwise `title.charAt(0).toUpperCase()`. -/
def serviceGroupKey (s : Service) : String :=
  if s.title = "" then "#"
  else String.singleton (jsToUpperChar s.title.front)

/-- One output group of the index: `{ letter, services }`. -/
structure ServiceGroup where
  letter : String
  services : List Service
deriving DecidableEq

/-- The `grouped` dictionary is modelled as an association list in key
insertion order; `grouped[k].push(s)` appends to the entry for `k`,
creating it on first encounter. -/
def insertGrouped (m : List (String × List Service)) (k : String) (s : Service) :
    List (String × List Service) :=
  match m with
  | [] => [(k, [s])]
  | (k', l) :: rest =>
      if k' = k then (k', l ++ [s]) :: rest else (k', l) :: insertGrouped rest k s

/-- The `services.forEach(...)` loop building `grouped`. -/
def buildGrouped (services : List Service) : List (String × List Service) :=
  services.foldl (fun m s => insertGrouped m (serviceGroupKey s) s) []

/-- Dictionary lookup `grouped[letter]`, defaulting to `[]` for a key that
was never inserted (such a key is never looked up by the source, which maps
only over `Object.keys(grouped)`). -/
def lookupGrouped (m : List (String × List Service)) (k : String) : List Service :=
  match m with
  | [] => []
  | (k', l) :: rest => if k' = k then l else lookupGrouped rest k

/-- Lexicographic `≤` on character lists, written as an executable Bool
function. This is the comparison JS `Array.prototype.sort()` applies to
strings (code-unit lexicographic; for the BMP characters in this data, code
units and codepoints agree). -/
def lexLeb : List Char → List Char → Bool
  | [], _ => true
  | _ :: _, [] => false
  | a :: as, b :: bs =>
      if a < b then true
      else if b < a then false
      else lexLeb as bs

/-- String comparison used by `Object.keys(grouped).sort()`. -/
def strLeb (s t : String) : Bool :=
  lexLeb s.data t.data

/-- `groupServicesByFirstLetter`: build `grouped`, then
`Object.keys(grouped).sort().map(letter => ({letter, services: grouped[letter]}))`.
(The JS integer-like-keys-first enumeration order of `Object.keys` is
irrelevant: the keys are re-sorted and values are fetched by key.) -/
def groupServicesByFirstLetter (services : List Service) : List ServiceGroup :=
  let grouped := buildGrouped services
  (List.insertionSort (fun a b => strLeb a b = true) (grouped.map Prod.fst)).map
    (fun letter => { letter := letter, services := lookupGrouped grouped letter })

/-! ## Rich-text renderer (from `renderRichText` in the service detail page) -/

/-- One run of text inside a paragraph block: `{ text, bold?, italic? }`.
A missing JS flag is falsy, so both flags are plain `Bool`s. -/
structure TextRun where
  text : String
  bold : Bool
  italic : Bool
deriving DecidableEq

/-- One loosely-typed rich-text block `{ type, children? }`. `children` is
`none` when the field is missing or not an array (the source accesses
`block.children.map` without any guard, which throws in that case). -/
structure RTBlock where
  type : String
  children : Option (List TextRun)
deriving DecidableEq

/-- An inline display node: `<strong>…</strong>`, `<em>…</em>`, or plain
text (the `<span>` wrapper carries no formatting and is modelled as plain
text). Children are full inline nodes so that nested markup is expressible. -/
inductive Inline where
  | strong (child : Inline)
  | em (child : Inline)
  | text (s : String)
deriving DecidableEq

/-- A block-level display node: the `<p>` produced for a paragraph block. -/
inductive RTNode where
  | para (inlines : List Inline)
deriving DecidableEq

/-- The `content: any` argument of `renderRichText`: `nullish` for
`null`/`undefined` (falsy), `nonArray` for a truthy non-array value, and
`arr` for an actual array of blocks. -/
inductive RTInput where
  | nullish
  | nonArray
  | arr (blocks : List RTBlock)
deriving DecidableEq

/-- The per-run rendering inside the paragraph branch: `child.bold` is
tested first and returns `<strong>{text}</strong>`; only otherwise is
`child.italic` tested for `<em>{text}</em>`; otherwise a plain
`<span>{text}</span>`. -/
def renderRun (child : TextRun) : Inline :=
  if child.bold then .strong (.text child.text)
  else if child.italic then .em (.text child.text)
  else .text child.text

/-- The per-block branch of the `content.map` callback: a `paragraph` block
yields `<p>{block.children.map(...)}</p>` — where `block.children.map`
throws (`.error ()`) when `children` is missing or not an array — and any
other block type yields React `null` (`some`-free output, `.ok none`). -/
def renderBlock (b : RTBlock) : Except Unit (Option RTNode) :=
  if b.type = "paragraph" then
    match b.children with
    | some runs => .ok (some (.para (runs.map renderRun)))
    | none => .error ()
  else .ok none

/-- The `content.map(...)` over the block array, with the first throwing
block aborting the whole render. -/
def renderBlockList : List RTBlock → Except Unit (List (Option RTNode))
  | [] => .ok []
  | b :: rest => do
    let x ← renderBlock b
    let xs ← renderBlockList rest
    .ok (x :: xs)

/-- `renderRichText`: `null` for falsy or non-array input, else the `<div>`
holding the mapped blocks. React renders `null` array entries as nothing,
so the resulting display tree keeps exactly the paragraph nodes, in order:
the `Option RTNode` entries are flattened with `filterMap`. -/
def renderRichText (content : RTInput) : Except Unit (Option (List RTNode)) :=
  match content with
  | .nullish => .ok none
  | .nonArray => .ok none
  | .arr blocks => (renderBlockList blocks).map (fun xs => some (xs.filterMap id))

/-! ## Auxiliary definitions used by the statements -/

/-- The fields `serviceData` actually read from: `item.attributes || item`. -/
def effectiveFields (item : RawItem) : RawFields :=
  item.attributes.getD item.top

/-- The synthesized slug `` `service-${item.id}` `` used when the source
slug is falsy. -/
def defaultSlug (i : Nat) : String :=
  "service-" ++ decimalRepr i

/-- Building a `Service` out of one explicitly chosen field record — the
spec-side description of what the normalizer does once the record shape
(wrapped vs. flat) has been decided. Used to state the shape-detection
claim. -/
def serviceFromFields (i : Nat) (f : RawFields) : Service :=
  { id := i
    title := jsStrOr f.title "Без названия"
    description := jsStrOr f.description ""
    slug := jsStrOr f.slug (defaultSlug i)
    image := f.image.getD [] }

/-- Re-injecting a canonical `Service` as a flat raw record (all fields
present at top level, no `attributes` wrapper), for the idempotence claim. -/
def toFlatRaw (s : Service) : RawItem :=
  { id := s.id
    attributes := none
    top := { title := some s.title
             description := some s.description
             slug := some s.slug
             image := some s.image } }

/-- A Cyrillic-letter test (the codepoint range 0x400 to 0x4FF covers the Russian
alphabet including Ё/ё), used to state that the `"#"` sentinel sorts before
every ASCII or Cyrillic letter key. -/
def isCyrillicLetter (c : Char) : Bool :=
  0x400 ≤ c.toNat && c.toNat ≤ 0x4FF

/-- A raw record whose `title` is missing, used as the concrete input of
the title-defaulting counterexample. -/
def rawNoTitle : RawItem :=
  { id := 7
    attributes := none
    top := { title := none, description := some "d", slug := some "x", image := none } }

/-- A two-record batch with distinct ids in which an explicit slug collides
with a defaulted one, used as the concrete input of the slug-uniqueness
counterexample. -/
def collidingSlugBatch : List RawItem :=
  [ { id := 1
      attributes := none
      top := { title := some "T", description := none, slug := some "service-2", image := none } }
  , { id := 2
      attributes := none
      top := { title := some "U", description := none, slug := none, image := none } } ]

/-- A tiny service constructor for concrete grouping examples: only the
title matters to the grouping. -/
def sampleService (i : Nat) (t : String) : Service :=
  { id := i, title := t, description := "", slug := "s", image := [] }

/-- A raw record with no readable field at all (every field missing). -/
def emptyRawItem : RawItem :=
  { id := 3
    attributes := none
    top := { title := none, description := none, slug := none, image := none } }

/-- Wrapper-shape sample fields. -/
def wrappedFields : RawFields :=
  { title := some "Пилинг", description := some "d", slug := some "piling", image := none }

/-- A raw record in the wrapped shape `{ id, attributes }`. -/
def wrappedRawItem : RawItem :=
  { id := 5
    attributes := some wrappedFields
    top := { title := none, description := none, slug := none, image := none } }

/-- A canonical flat service with every field present and non-empty. -/
def canonicalService : Service :=
  { id := 9, title := "Пилинг", description := "описание", slug := "piling", image := [] }

/-! ## Infrastructure: the decimal representation is injective -/

theorem decDigitsAux_eq_digits :
    ∀ (n fuel : Nat), n ≤ fuel →
      decDigitsAux fuel n = ((Nat.digits 10 n).map digitToChar).reverse
  | 0, fuel, _ => by cases fuel <;> simp [decDigitsAux]
  | m + 1, 0, h => absurd h (by omega)
  | m + 1, f + 1, h => by
      have hrec := decDigitsAux_eq_digits ((m + 1) / 10) f
        (by
          have : (m + 1) / 10 < m + 1 := Nat.div_lt_self (Nat.succ_pos m) (by omega)
          omega)
      rw [decDigitsAux, hrec, Nat.digits_def' (by omega : (1:Nat) < 10) (Nat.succ_pos m)]
      simp

theorem digitToChar_inj {a b : Nat} (ha : a < 10) (hb : b < 10)
    (h : digitToChar a = digitToChar b) : a = b := by
  interval_cases a <;> interval_cases b <;> revert h <;> decide

theorem map_digitToChar_inj :
    ∀ {l₁ l₂ : List Nat}, (∀ x ∈ l₁, x < 10) → (∀ x ∈ l₂, x < 10) →
      l₁.map digitToChar = l₂.map digitToChar → l₁ = l₂
  | [], [], _, _, _ => rfl
  | [], _ :: _, _, _, h => by simp at h
  | _ :: _, [], _, _, h => by simp at h
  | a :: as, b :: bs, h₁, h₂, h => by
      simp only [List.map_cons, List.cons.injEq] at h
      have hab : a = b :=
        digitToChar_inj (h₁ a (List.mem_cons_self a as)) (h₂ b (List.mem_cons_self b bs)) h.1
      have htl : as = bs :=
        map_digitToChar_inj (fun x hx => h₁ x (List.mem_cons_of_mem _ hx))
          (fun x hx => h₂ x (List.mem_cons_of_mem _ hx)) h.2
      rw [hab, htl]

theorem decimalRepr_eq_digits (n : Nat) :
    decimalRepr n = if n = 0 then "0" else ⟨((Nat.digits 10 n).map digitToChar).reverse⟩ := by
  rw [decimalRepr]
  split
  · rfl
  · rw [decDigitsAux_eq_digits n n le_rfl]; rfl

theorem decimalRepr_injective : Function.Injective decimalRepr := by
  intro a b h
  rw [decimalRepr_eq_digits, decimalRepr_eq_digits] at h
  by_cases ha : a = 0 <;> by_cases hb : b = 0
  · rw [ha, hb]
  · exfalso
    rw [if_pos ha, if_neg hb] at h
    have hdata : ['0'] = ((Nat.digits 10 b).map digitToChar).reverse := congrArg String.data h
    have hmap : (Nat.digits 10 b).map digitToChar = ['0'] := by
      have := congrArg List.reverse hdata
      simpa using this.symm
    have hdig : Nat.digits 10 b = [0] :=
      map_digitToChar_inj (fun x hx => Nat.digits_lt_base (by omega) hx)
        (by intro x hx; simp at hx; omega) hmap
    have hofd := Nat.ofDigits_digits 10 b
    rw [hdig] at hofd
    simp [Nat.ofDigits] at hofd
    exact hb hofd.symm
  · exfalso
    rw [if_neg ha, if_pos hb] at h
    have hdata : ((Nat.digits 10 a).map digitToChar).reverse = ['0'] := congrArg String.data h
    have hmap : (Nat.digits 10 a).map digitToChar = ['0'] := by
      have := congrArg List.reverse hdata
      simpa using this
    have hdig : Nat.digits 10 a = [0] :=
      map_digitToChar_inj (fun x hx => Nat.digits_lt_base (by omega) hx)
        (by intro x hx; simp at hx; omega) hmap
    have hofd := Nat.ofDigits_digits 10 a
    rw [hdig] at hofd
    simp [Nat.ofDigits] at hofd
    exact ha hofd.symm
  · rw [if_neg ha, if_neg hb] at h
    have hdata : ((Nat.digits 10 a).map digitToChar).reverse
        = ((Nat.digits 10 b).map digitToChar).reverse := congrArg String.data h
    have hmap := List.reverse_injective hdata
    have hdig := map_digitToChar_inj (fun x hx => Nat.digits_lt_base (by omega) hx)
      (fun x hx => Nat.digits_lt_base (by omega) hx) hmap
    exact Nat.digits_inj_iff.mp hdig

theorem defaultSlug_injective : Function.Injective defaultSlug := by
  intro a b h
  apply decimalRepr_injective
  have hdata : "service-".data ++ (decimalRepr a).data
      = "service-".data ++ (decimalRepr b).data := by
    have := congrArg String.data h
    simpa [defaultSlug, String.data_append] using this
  exact String.toList_inj.mp (List.append_cancel_left hdata)

/-! ## Infrastructure: the normalizer -/

theorem normalizeItem_eq (item : RawItem) :
    normalizeItem item = serviceFromFields item.id (effectiveFields item) := rfl

theorem jsStrOr_of_missing {v : Option String} (d : String)
    (h : v = none ∨ v = some "") : jsStrOr v d = d := by
  rcases h with h | h <;> rw [h] <;> simp [jsStrOr]

theorem jsStrOr_of_present {s : String} (d : String) (h : s ≠ "") :
    jsStrOr (some s) d = s := by
  simp [jsStrOr, h]

theorem normalizeItem_title_ne (item : RawItem) : (normalizeItem item).title ≠ "" := by
  rw [normalizeItem_eq]
  show jsStrOr (effectiveFields item).title "Без названия" ≠ ""
  rcases (effectiveFields item).title with _ | s
  · simp [jsStrOr]
  · by_cases h : s = "" <;> simp [jsStrOr, h]

theorem defaultSlug_ne_empty (i : Nat) : defaultSlug i ≠ "" := by
  intro h
  have hdata := congrArg String.data h
  simp [defaultSlug, String.data_append] at hdata

/-! ## Infrastructure: the sort comparator agrees with the String order -/

theorem lexLeb_eq_true_iff :
    ∀ (l₁ l₂ : List Char), lexLeb l₁ l₂ = true ↔ ¬ List.lt l₂ l₁
  | [], l₂ => by
      constructor
      · intro _ h
        cases l₂ with
        | nil => cases h
        | cons b bs => cases h
      · intro _
        rfl
  | a :: as, [] => by
      constructor
      · intro h
        exact absurd h (by simp [lexLeb])
      · intro h
        exact absurd (List.lt.nil a as) h
  | a :: as, b :: bs => by
      simp only [lexLeb]
      rcases lt_trichotomy a b with hab | hab | hab
      · rw [if_pos hab]
        constructor
        · intro _ hlt
          cases hlt with
          | head _ _ hh => exact absurd hab (asymm hh)
          | tail h₁ h₂ _ => exact h₂ hab
        · intro _
          rfl
      · subst hab
        rw [if_neg (lt_irrefl a), if_neg (lt_irrefl a), lexLeb_eq_true_iff as bs]
        constructor
        · intro h hlt
          cases hlt with
          | head _ _ hh => exact absurd hh (lt_irrefl a)
          | tail _ _ ht => exact h ht
        · intro h hlt
          exact h (List.lt.tail (lt_irrefl a) (lt_irrefl a) hlt)
      · rw [if_neg (asymm hab), if_pos hab]
        constructor
        · intro h
          exact absurd h (by simp)
        · intro h
          exact absurd (List.lt.head bs as hab) h

theorem strLeb_iff_le (s t : String) : strLeb s t = true ↔ s ≤ t := by
  rw [← not_lt, String.lt_iff_toList_lt]
  have h : (t.toList < s.toList) ↔ List.lt t.data s.data := by
    show List.Lex (· < ·) t.data s.data ↔ _
    exact (List.lt_iff_lex_lt t.data s.data).symm
  rw [h]
  exact lexLeb_eq_true_iff s.data t.data

theorem strLeb_total (a b : String) : strLeb a b = true ∨ strLeb b a = true := by
  rcases le_total a b with h | h
  · exact Or.inl ((strLeb_iff_le a b).mpr h)
  · exact Or.inr ((strLeb_iff_le b a).mpr h)

theorem strLeb_trans {a b c : String} (h₁ : strLeb a b = true) (h₂ : strLeb b c = true) :
    strLeb a c = true :=
  (strLeb_iff_le a c).mpr (le_trans ((strLeb_iff_le a b).mp h₁) ((strLeb_iff_le b c).mp h₂))

theorem normalizeItem_slug_ne (item : RawItem) : (normalizeItem item).slug ≠ "" := by
  rw [normalizeItem_eq]
  show jsStrOr (effectiveFields item).slug (defaultSlug item.id) ≠ ""
  rcases (effectiveFields item).slug with _ | s
  · simpa [jsStrOr] using defaultSlug_ne_empty item.id
  · by_cases h : s = ""
    · simpa [jsStrOr, h] using defaultSlug_ne_empty item.id
    · simp [jsStrOr, h]

/-! ## Infrastructure: the grouping dictionary -/

theorem lookupGrouped_insertGrouped (m : List (String × List Service)) (k k' : String)
    (s : Service) :
    lookupGrouped (insertGrouped m k' s) k
      = lookupGrouped m k ++ (if k' = k then [s] else []) := by
  induction m with
  | nil =>
      by_cases h : k' = k <;> simp [insertGrouped, lookupGrouped, h]
  | cons e rest ih =>
      obtain ⟨k₀, l₀⟩ := e
      by_cases h₁ : k₀ = k'
      · subst h₁
        by_cases h₂ : k₀ = k
        · subst h₂
          simp [insertGrouped, lookupGrouped]
        · simp [insertGrouped, lookupGrouped, h₂]
      · by_cases h₂ : k₀ = k
        · subst h₂
          simp [insertGrouped, lookupGrouped, h₁, Ne.symm h₁]
        · simp [insertGrouped, lookupGrouped, h₁, h₂, ih]

theorem lookupGrouped_foldl (l : List Service) :
    ∀ (m : List (String × List Service)) (k : String),
      lookupGrouped (l.foldl (fun m s => insertGrouped m (serviceGroupKey s) s) m) k
        = lookupGrouped m k ++ l.filter (fun s => serviceGroupKey s == k) := by
  induction l with
  | nil => intro m k; simp
  | cons s rest ih =>
      intro m k
      simp only [List.foldl_cons, List.filter_cons]
      rw [ih, lookupGrouped_insertGrouped]
      by_cases h : serviceGroupKey s = k
      · simp [h, List.append_assoc]
      · simp [h]

theorem lookupGrouped_buildGrouped (l : List Service) (k : String) :
    lookupGrouped (buildGrouped l) k = l.filter (fun s => serviceGroupKey s == k) := by
  have h := lookupGrouped_foldl l [] k
  simpa [buildGrouped, lookupGrouped] using h

theorem keys_insertGrouped (m : List (String × List Service)) (k : String) (s : Service) :
    (insertGrouped m k s).map Prod.fst
      = if k ∈ m.map Prod.fst then m.map Prod.fst else m.map Prod.fst ++ [k] := by
  induction m with
  | nil => simp [insertGrouped]
  | cons e rest ih =>
      obtain ⟨k₀, l₀⟩ := e
      by_cases h : k₀ = k
      · subst h
        simp [insertGrouped, List.mem_cons]
      · simp only [insertGrouped, if_neg h, List.map_cons, List.mem_cons, ih]
        by_cases hm : k ∈ rest.map Prod.fst
        · simp [hm, Ne.symm h]
        · simp [hm, Ne.symm h]

theorem nodup_keys_insertGrouped {m : List (String × List Service)} (k : String) (s : Service)
    (h : (m.map Prod.fst).Nodup) : ((insertGrouped m k s).map Prod.fst).Nodup := by
  rw [keys_insertGrouped]
  split
  · exact h
  · next hk => simp [List.nodup_append, h, hk]

theorem nodup_keys_foldl (l : List Service) :
    ∀ (m : List (String × List Service)), (m.map Prod.fst).Nodup →
      ((l.foldl (fun m s => insertGrouped m (serviceGroupKey s) s) m).map Prod.fst).Nodup := by
  induction l with
  | nil => intro m h; simpa using h
  | cons s rest ih =>
      intro m h
      exact ih _ (nodup_keys_insertGrouped _ _ h)

theorem nodup_keys_buildGrouped (l : List Service) :
    ((buildGrouped l).map Prod.fst).Nodup :=
  nodup_keys_foldl l [] (by simp)

theorem mem_keys_foldl (l : List Service) :
    ∀ (m : List (String × List Service)) (k : String),
      (k ∈ (l.foldl (fun m s => insertGrouped m (serviceGroupKey s) s) m).map Prod.fst
        ↔ k ∈ m.map Prod.fst ∨ ∃ s ∈ l, serviceGroupKey s = k) := by
  induction l with
  | nil => intro m k; simp
  | cons s rest ih =>
      intro m k
      simp only [List.foldl_cons]
      rw [ih, keys_insertGrouped]
      by_cases h : serviceGroupKey s ∈ m.map Prod.fst
      · rw [if_pos h]
        constructor
        · rintro (hm | hex)
          · exact Or.inl hm
          · exact Or.inr ⟨_, List.mem_cons_of_mem s hex.choose_spec.1, hex.choose_spec.2⟩
        · rintro (hm | ⟨x, hx, hkx⟩)
          · exact Or.inl hm
          · rcases List.mem_cons.mp hx with rfl | hx'
            · exact Or.inl (hkx ▸ h)
            · exact Or.inr ⟨x, hx', hkx⟩
      · rw [if_neg h]
        simp only [List.mem_append, List.mem_singleton]
        constructor
        · rintro ((hm | rfl) | hex)
          · exact Or.inl hm
          · exact Or.inr ⟨s, List.mem_cons_self s rest, rfl⟩
          · exact Or.inr ⟨_, List.mem_cons_of_mem s hex.choose_spec.1, hex.choose_spec.2⟩
        · rintro (hm | ⟨x, hx, hkx⟩)
          · exact Or.inl (Or.inl hm)
          · rcases List.mem_cons.mp hx with rfl | hx'
            · exact Or.inl (Or.inr hkx.symm)
            · exact Or.inr ⟨x, hx', hkx⟩

theorem mem_keys_buildGrouped (l : List Service) (k : String) :
    k ∈ (buildGrouped l).map Prod.fst ↔ ∃ s ∈ l, serviceGroupKey s = k := by
  have h := mem_keys_foldl l [] k
  simpa [buildGrouped] using h

theorem lookupGrouped_of_mem :
    ∀ {m : List (String × List Service)}, (m.map Prod.fst).Nodup →
      ∀ {e}, e ∈ m → lookupGrouped m e.1 = e.2
  | [], _, _, he => absurd he (List.not_mem_nil _)
  | (k₀, l₀) :: rest, h, e, he => by
      rcases List.mem_cons.mp he with rfl | he'
      · simp [lookupGrouped]
      · have hk₀ : k₀ ∉ rest.map Prod.fst := (List.nodup_cons.mp (by simpa using h)).1
        have hne : k₀ ≠ e.1 := by
          intro hh
          exact hk₀ (hh ▸ List.mem_map_of_mem Prod.fst he')
        have hrec := lookupGrouped_of_mem (List.nodup_cons.mp (by simpa using h)).2 he'
        simp [lookupGrouped, hne, hrec]

theorem flatten_insertGrouped (m : List (String × List Service)) (k : String) (s : Service) :
    (((insertGrouped m k s).map Prod.snd).flatten).Perm
      (s :: (m.map Prod.snd).flatten) := by
  induction m with
  | nil => simp [insertGrouped]
  | cons e rest ih =>
      obtain ⟨k₀, l₀⟩ := e
      by_cases h : k₀ = k
      · simp only [insertGrouped, if_pos h, List.map_cons, List.flatten_cons]
        have h₁ : (l₀ ++ [s]) ++ (rest.map Prod.snd).flatten
            = l₀ ++ (s :: (rest.map Prod.snd).flatten) := by simp
        rw [h₁]
        exact List.perm_middle
      · simp only [insertGrouped, if_neg h, List.map_cons, List.flatten_cons]
        have h₁ : (l₀ ++ ((insertGrouped rest k s).map Prod.snd).flatten).Perm
            (l₀ ++ (s :: (rest.map Prod.snd).flatten)) := List.Perm.append_left _ ih
        exact h₁.trans List.perm_middle

theorem flatten_foldl (l : List Service) :
    ∀ (m : List (String × List Service)),
      (((l.foldl (fun m s => insertGrouped m (serviceGroupKey s) s) m).map Prod.snd).flatten).Perm
        (l ++ (m.map Prod.snd).flatten) := by
  induction l with
  | nil => intro m; simp
  | cons s rest ih =>
      intro m
      simp only [List.foldl_cons, List.cons_append]
      have h₁ := ih (insertGrouped m (serviceGroupKey s) s)
      have h₂ : (rest ++ ((insertGrouped m (serviceGroupKey s) s).map Prod.snd).flatten).Perm
          (rest ++ (s :: (m.map Prod.snd).flatten)) :=
        List.Perm.append_left _ (flatten_insertGrouped _ _ _)
      exact (h₁.trans h₂).trans List.perm_middle

theorem flatten_buildGrouped (l : List Service) :
    (((buildGrouped l).map Prod.snd).flatten).Perm l := by
  have h := flatten_foldl l []
  simpa [buildGrouped] using h

/-! ## Infrastructure: the produced groups -/

theorem groupServicesByFirstLetter_eq (l : List Service) :
    groupServicesByFirstLetter l
      = (List.insertionSort (fun a b => strLeb a b = true) ((buildGrouped l).map Prod.fst)).map
          (fun k => ⟨k, l.filter (fun s => serviceGroupKey s == k)⟩) := by
  rw [groupServicesByFirstLetter]
  refine List.map_congr_left ?_
  intro k _
  rw [lookupGrouped_buildGrouped]

theorem letters_eq (l : List Service) :
    (groupServicesByFirstLetter l).map ServiceGroup.letter
      = List.insertionSort (fun a b => strLeb a b = true) ((buildGrouped l).map Prod.fst) := by
  rw [groupServicesByFirstLetter_eq, List.map_map]
  exact List.map_id _

theorem letters_sorted (l : List Service) :
    ((groupServicesByFirstLetter l).map ServiceGroup.letter).Sorted (· ≤ ·) := by
  haveI htot : IsTotal String (fun a b => strLeb a b = true) := ⟨strLeb_total⟩
  haveI htr : IsTrans String (fun a b => strLeb a b = true) := ⟨fun _ _ _ => strLeb_trans⟩
  rw [letters_eq]
  have h := List.sorted_insertionSort (fun a b => strLeb a b = true)
    ((buildGrouped l).map Prod.fst)
  exact h.imp (fun hab => (strLeb_iff_le _ _).mp hab)

theorem letters_nodup (l : List Service) :
    ((groupServicesByFirstLetter l).map ServiceGroup.letter).Nodup := by
  rw [letters_eq]
  exact (List.perm_insertionSort (fun a b => strLeb a b = true) _).nodup_iff.mpr
    (nodup_keys_buildGrouped l)

theorem letters_sorted_lt (l : List Service) :
    ((groupServicesByFirstLetter l).map ServiceGroup.letter).Sorted (· < ·) :=
  List.Sorted.lt_of_le (letters_sorted l) (letters_nodup l)

theorem groups_perm (l : List Service) :
    (groupServicesByFirstLetter l).Perm
      ((buildGrouped l).map (fun e => ⟨e.1, e.2⟩)) := by
  rw [groupServicesByFirstLetter]
  have hperm := List.perm_insertionSort (fun a b => strLeb a b = true)
    ((buildGrouped l).map Prod.fst)
  have h₁ := hperm.map
    (fun k => (⟨k, lookupGrouped (buildGrouped l) k⟩ : ServiceGroup))
  have h₂ : ((buildGrouped l).map Prod.fst).map
      (fun k => (⟨k, lookupGrouped (buildGrouped l) k⟩ : ServiceGroup))
      = (buildGrouped l).map (fun e => ⟨e.1, e.2⟩) := by
    rw [List.map_map]
    refine List.map_congr_left ?_
    intro e he
    have := lookupGrouped_of_mem (nodup_keys_buildGrouped l) he
    simp only [Function.comp_apply]
    rw [this]
  exact h₁.trans (h₂ ▸ List.Perm.refl _)

theorem flatten_groups_perm (l : List Service) :
    (((groupServicesByFirstLetter l).map ServiceGroup.services).flatten).Perm l := by
  have h₁ := (groups_perm l).map ServiceGroup.services
  have h₂ : (((buildGrouped l).map (fun e => (⟨e.1, e.2⟩ : ServiceGroup))).map
      ServiceGroup.services) = (buildGrouped l).map Prod.snd := by
    rw [List.map_map]
    rfl
  rw [h₂] at h₁
  exact (h₁.flatten).trans (flatten_buildGrouped l)

theorem mem_groups_iff {l : List Service} {g : ServiceGroup} :
    g ∈ groupServicesByFirstLetter l
      ↔ (∃ s ∈ l, serviceGroupKey s = g.letter)
          ∧ g.services = l.filter (fun s => serviceGroupKey s == g.letter) := by
  rw [groupServicesByFirstLetter_eq, List.mem_map]
  constructor
  · rintro ⟨k, hk, rfl⟩
    rw [List.mem_insertionSort, mem_keys_buildGrouped] at hk
    exact ⟨hk, rfl⟩
  · rintro ⟨⟨s, hs, hkey⟩, hserv⟩
    refine ⟨g.letter, ?_, ?_⟩
    · rw [List.mem_insertionSort, mem_keys_buildGrouped]
      exact ⟨s, hs, hkey⟩
    · cases g with
      | mk letter services =>
          simp only at hserv
          rw [hserv]

theorem mem_group_of_mem {l : List Service} {s : Service} (hs : s ∈ l) :
    ∃ g ∈ groupServicesByFirstLetter l,
      g.letter = serviceGroupKey s ∧ s ∈ g.services := by
  refine ⟨⟨serviceGroupKey s, l.filter (fun x => serviceGroupKey x == serviceGroupKey s)⟩,
    ?_, rfl, ?_⟩
  · rw [mem_groups_iff]
    exact ⟨⟨s, hs, rfl⟩, rfl⟩
  · simp only [List.mem_filter]
    exact ⟨hs, by simp⟩

/-! ## Infrastructure: the rich-text renderer -/

theorem renderBlock_paragraph {b : RTBlock} {runs : List TextRun}
    (ht : b.type = "paragraph") (hc : b.children = some runs) :
    renderBlock b = .ok (some (.para (runs.map renderRun))) := by
  rw [renderBlock, if_pos ht, hc]

theorem renderBlock_other {b : RTBlock} (ht : b.type ≠ "paragraph") :
    renderBlock b = .ok none := by
  rw [renderBlock, if_neg ht]

theorem renderBlock_bad_children {b : RTBlock}
    (ht : b.type = "paragraph") (hc : b.children = none) :
    renderBlock b = .error () := by
  rw [renderBlock, if_pos ht, hc]

theorem renderBlockList_of_wf :
    ∀ {blocks : List RTBlock}, (∀ b ∈ blocks, b.type = "paragraph" → b.children.isSome) →
      renderBlockList blocks
        = .ok (blocks.map (fun b =>
            if b.type = "paragraph" then some (.para ((b.children.getD []).map renderRun))
            else none))
  | [], _ => rfl
  | hd :: tl, h => by
      have htl := renderBlockList_of_wf
        (fun b hb hp => h b (List.mem_cons_of_mem hd hb) hp)
      rw [renderBlockList, htl]
      by_cases hp : hd.type = "paragraph"
      · have hsome := h hd (List.mem_cons_self hd tl) hp
        rcases hc : hd.children with _ | runs
        · rw [hc] at hsome; simp at hsome
        · rw [renderBlock_paragraph hp hc]
          simp [hp, hc]
          rfl
      · rw [renderBlock_other hp]
        simp [hp]
        rfl

theorem renderBlockList_error :
    ∀ {blocks : List RTBlock} {b : RTBlock}, b ∈ blocks →
      b.type = "paragraph" → b.children = none →
      renderBlockList blocks = .error ()
  | [], _, hb, _, _ => absurd hb (List.not_mem_nil _)
  | hd :: tl, b, hb, ht, hc => by
      rcases List.mem_cons.mp hb with rfl | hmem
      · rw [renderBlockList, renderBlock_bad_children ht hc]
        rfl
      · rw [renderBlockList]
        cases hrb : renderBlock hd with
        | error e => cases e; rfl
        | ok v =>
            rw [renderBlockList_error hmem ht hc]
            rfl

theorem filterMap_render (blocks : List RTBlock) :
    (blocks.map (fun b =>
        if b.type = "paragraph" then some (RTNode.para ((b.children.getD []).map renderRun))
        else none)).filterMap id
      = (blocks.filter (fun b => b.type == "paragraph")).map
          (fun b => RTNode.para ((b.children.getD []).map renderRun)) := by
  induction blocks with
  | nil => rfl
  | cons hd tl ih =>
      by_cases h : hd.type = "paragraph" <;> simp [h, ih]

theorem renderRichText_of_wf {blocks : List RTBlock}
    (h : ∀ b ∈ blocks, b.type = "paragraph" → b.children.isSome) :
    renderRichText (.arr blocks)
      = .ok (some ((blocks.filter (fun b => b.type == "paragraph")).map
          (fun b => RTNode.para ((b.children.getD []).map renderRun)))) := by
  rw [renderRichText, renderBlockList_of_wf h]
  simp only [Except.map]
  rw [filterMap_render]

/-! ## Claims -/

/-- C1 (counterexample): a raw record with a missing title is normalized to
the placeholder title, but grouping the normalized collection then files it
under the letter `"Б"` (the first letter of `"Без названия"`), and no group
with letter `"#"` exists — contradicting the claim that the service lands
in the `"#"` group. -/
theorem claimC1_counterexample :
    (normalizeItem rawNoTitle).title = "Без названия" ∧
    (groupServicesByFirstLetter [normalizeItem rawNoTitle]).map ServiceGroup.letter = ["Б"] ∧
    ¬ ∃ g ∈ groupServicesByFirstLetter [normalizeItem rawNoTitle], g.letter = "#" :=
  ⟨by decide, by decide, by decide⟩

/-- C1 (amended): for every raw record whose title is missing or empty, the
normalized title is the placeholder `"Без названия"`, and grouping any
normalized collection containing that service places it in the group with
letter `"Б"` — the first letter of the placeholder — not `"#"`. -/
theorem claimC1_missing_title (item : RawItem)
    (h : (effectiveFields item).title = none ∨ (effectiveFields item).title = some "") :
    (normalizeItem item).title = "Без названия" ∧
    ∀ l : List Service, normalizeItem item ∈ l →
      ∃ g ∈ groupServicesByFirstLetter l, g.letter = "Б" ∧ normalizeItem item ∈ g.services := by
  have htitle : (normalizeItem item).title = "Без названия" := by
    rw [normalizeItem_eq]
    show jsStrOr (effectiveFields item).title "Без названия" = _
    exact jsStrOr_of_missing _ h
  refine ⟨htitle, ?_⟩
  intro l hl
  obtain ⟨g, hg, hletter, hmem⟩ := mem_group_of_mem hl
  refine ⟨g, hg, ?_, hmem⟩
  rw [hletter]
  show (if (normalizeItem item).title = "" then "#"
    else String.singleton (jsToUpperChar (normalizeItem item).title.front)) = "Б"
  rw [htitle]
  decide

/-- C1 (witness): the amended claim applied to the concrete titleless record. -/
theorem claimC1_missing_title_witness :
    (normalizeItem rawNoTitle).title = "Без названия" ∧
    ∃ g ∈ groupServicesByFirstLetter [normalizeItem rawNoTitle],
      g.letter = "Б" ∧ normalizeItem rawNoTitle ∈ g.services := by
  have h := claimC1_missing_title rawNoTitle (Or.inl rfl)
  exact ⟨h.1, h.2 [normalizeItem rawNoTitle] (List.mem_singleton_self _)⟩

/-- C2 (counterexample): a run with both `bold` and `italic` set renders as
a bold node containing plain text — the italic flag is ignored — not as the
claimed bold-outer/italic-inner nesting. -/
theorem claimC2_counterexample :
    renderRun ⟨"Hi", true, true⟩ = .strong (.text "Hi") ∧
    renderRun ⟨"Hi", true, true⟩ ≠ .strong (.em (.text "Hi")) :=
  ⟨rfl, by decide⟩

/-- C2 (amended): within a paragraph the renderer emits one inline node per
run, in input order; a run with `bold` set renders as a bold node containing
the plain text (whatever the italic flag says — no nesting); a run with only
`italic` set renders as an italic node; a run with neither renders as plain
text. -/
theorem claimC2_runs (b : RTBlock) (runs : List TextRun)
    (ht : b.type = "paragraph") (hc : b.children = some runs) :
    renderBlock b = .ok (some (.para (runs.map renderRun))) ∧
    ∀ r ∈ runs,
      (r.bold = true → renderRun r = .strong (.text r.text)) ∧
      (r.bold = false → r.italic = true → renderRun r = .em (.text r.text)) ∧
      (r.bold = false → r.italic = false → renderRun r = .text r.text) := by
  refine ⟨renderBlock_paragraph ht hc, ?_⟩
  intro r _
  refine ⟨fun h₁ => ?_, fun h₁ h₂ => ?_, fun h₁ h₂ => ?_⟩ <;> simp [renderRun, h₁, *]

/-- C2 (witness): the amended claim applied to a concrete paragraph with a
bold-and-italic run followed by an unstyled run. -/
theorem claimC2_runs_witness :
    renderBlock ⟨"paragraph", some [⟨"Hi", true, true⟩, ⟨" there", false, false⟩]⟩
      = .ok (some (.para [.strong (.text "Hi"), .text " there"])) :=
  (claimC2_runs ⟨"paragraph", some [⟨"Hi", true, true⟩, ⟨" there", false, false⟩]⟩
    [⟨"Hi", true, true⟩, ⟨" there", false, false⟩] rfl rfl).1

/-- C3: the normalizer is total — one `Service` per raw record, in order,
with titles and slugs never left empty, and a record with no readable field
at all resolving every field to its documented default. -/
theorem claimC3_total (data : List RawItem) :
    (getAllServicesTransform data).length = data.length ∧
    (∀ i : Nat, (getAllServicesTransform data)[i]? = (data[i]?).map normalizeItem) ∧
    (∀ item : RawItem,
      (normalizeItem item).title ≠ "" ∧ (normalizeItem item).slug ≠ "" ∧
      (effectiveFields item = ⟨none, none, none, none⟩ →
        normalizeItem item = ⟨item.id, "Без названия", "", defaultSlug item.id, []⟩)) := by
  refine ⟨by simp [getAllServicesTransform], ?_, ?_⟩
  · intro i
    simp [getAllServicesTransform]
  · intro item
    refine ⟨normalizeItem_title_ne item, normalizeItem_slug_ne item, ?_⟩
    intro h
    rw [normalizeItem_eq, h]
    rfl

/-- C3 (witness): the totality claim applied to the one-record batch whose
record has no readable field. -/
theorem claimC3_total_witness :
    (getAllServicesTransform [emptyRawItem]).length = 1 ∧
    normalizeItem emptyRawItem = ⟨3, "Без названия", "", defaultSlug 3, []⟩ := by
  have h := claimC3_total [emptyRawItem]
  exact ⟨h.1, (h.2.2 emptyRawItem).2.2 rfl⟩

/-- C4: `groupServicesByFirstLetter` partitions its input — the member
counts over all groups sum to the input length, every input service lies in
exactly one group, and the group letters are pairwise distinct. -/
theorem claimC4_partition (services : List Service) :
    ((groupServicesByFirstLetter services).map (fun g => g.services.length)).sum
        = services.length ∧
    (∀ s ∈ services, ∃! g, g ∈ groupServicesByFirstLetter services ∧ s ∈ g.services) ∧
    ((groupServicesByFirstLetter services).map ServiceGroup.letter).Nodup := by
  refine ⟨?_, ?_, letters_nodup services⟩
  · have hlen := (flatten_groups_perm services).length_eq
    rw [List.length_flatten, List.map_map] at hlen
    exact hlen
  · intro s hs
    obtain ⟨g, hg, hletter, hmem⟩ := mem_group_of_mem hs
    refine ⟨g, ⟨hg, hmem⟩, ?_⟩
    rintro g' ⟨hg', hmem'⟩
    have h1 := mem_groups_iff.mp hg'
    have h2 := mem_groups_iff.mp hg
    have hk' : serviceGroupKey s = g'.letter := by
      have hin := h1.2 ▸ hmem'
      simp only [List.mem_filter, beq_iff_eq] at hin
      exact hin.2
    have hk : serviceGroupKey s = g.letter := by
      have hin := h2.2 ▸ hmem
      simp only [List.mem_filter, beq_iff_eq] at hin
      exact hin.2
    have hll : g'.letter = g.letter := by rw [← hk', ← hk]
    have hss : g'.services = g.services := by rw [h1.2, h2.2, hll]
    cases g with
    | mk letter members =>
        cases g' with
        | mk letter' members' =>
            simp only at hll hss
            rw [hll, hss]

/-- C4 (witness): the partition claim applied to a concrete two-service
collection; the `∃!` component is instantiated at the first service. -/
theorem claimC4_partition_witness :
    ((groupServicesByFirstLetter [sampleService 1 "Апельсин", sampleService 2 "Банан"]).map
        (fun g => g.services.length)).sum = 2 ∧
    (∃! g, g ∈ groupServicesByFirstLetter [sampleService 1 "Апельсин", sampleService 2 "Банан"]
        ∧ sampleService 1 "Апельсин" ∈ g.services) := by
  have h := claimC4_partition [sampleService 1 "Апельсин", sampleService 2 "Банан"]
  exact ⟨h.1, h.2.1 _ (List.mem_cons_self _ _)⟩

/-- C5: groups come out sorted strictly ascending by letter under
codepoint order; each group's members are the input services with that
key, in original input order; the `"#"` sentinel sorts before every ASCII
or Cyrillic letter; and the spec's concrete example
`["Апельсин", "Банан", "", "Арбуз"]` yields groups `["#", "А", "Б"]` with
`"А"` containing `["Апельсин", "Арбуз"]` in that order. -/
theorem claimC5_sorted_groups :
    (∀ services : List Service,
      ((groupServicesByFirstLetter services).map ServiceGroup.letter).Sorted (· < ·)) ∧
    (∀ (services : List Service), ∀ g ∈ groupServicesByFirstLetter services,
      g.services = services.filter (fun s => serviceGroupKey s == g.letter)) ∧
    (∀ c : Char, (c.isAlpha = true ∨ isCyrillicLetter c = true) →
      ("#" : String) < String.singleton c) ∧
    groupServicesByFirstLetter
        [sampleService 1 "Апельсин", sampleService 2 "Банан", sampleService 3 "",
          sampleService 4 "Арбуз"]
      = [⟨"#", [sampleService 3 ""]⟩,
         ⟨"А", [sampleService 1 "Апельсин", sampleService 4 "Арбуз"]⟩,
         ⟨"Б", [sampleService 2 "Банан"]⟩] := by
  refine ⟨letters_sorted_lt, ?_, ?_, by decide⟩
  · intro services g hg
    exact (mem_groups_iff.mp hg).2
  · intro c hc
    have hn : 35 < c.toNat := by
      rcases hc with hc | hc
      · simp only [Char.isAlpha, Char.isUpper, Char.isLower, Bool.or_eq_true,
          Bool.and_eq_true, decide_eq_true_iff] at hc
        rcases hc with ⟨h₁, _⟩ | ⟨h₁, _⟩
        · have : (65 : Nat) ≤ c.toNat := h₁
          omega
        · have : (97 : Nat) ≤ c.toNat := h₁
          omega
      · simp only [isCyrillicLetter, Bool.and_eq_true, decide_eq_true_iff] at hc
        omega
    rw [String.lt_iff_toList_lt]
    show List.Lex (· < ·) ['#'] [c]
    exact List.Lex.rel hn

/-- C5 (witness): the sortedness claim instantiated at the letter `'А'` and
the member-order claim instantiated at the concrete sentinel group. -/
theorem claimC5_sorted_groups_witness :
    (("#" : String) < String.singleton 'А') ∧
    (⟨"#", [sampleService 3 ""]⟩ : ServiceGroup).services
      = [sampleService 3 ""].filter
          (fun s => serviceGroupKey s == (⟨"#", [sampleService 3 ""]⟩ : ServiceGroup).letter) :=
  ⟨claimC5_sorted_groups.2.2.1 'А' (Or.inr (by decide)),
   claimC5_sorted_groups.2.1 [sampleService 3 ""] ⟨"#", [sampleService 3 ""]⟩ (by decide)⟩

/-- C6 (counterexample): a batch with pairwise-distinct ids `[1, 2]` where
the first record carries the explicit slug `"service-2"` and the second has
no slug; the defaulted slug of the second collides with the explicit slug of
the first, so the normalized slugs are not pairwise distinct. -/
theorem claimC6_counterexample :
    (collidingSlugBatch.map RawItem.id).Nodup ∧
    ¬ ((getAllServicesTransform collidingSlugBatch).map Service.slug).Nodup :=
  ⟨by decide, by decide⟩

/-- C6 (amended): a record with missing or empty slug normalizes to
`"service-" ++ id`; and in a batch in which every record's slug is missing
or empty, pairwise-distinct ids yield pairwise-distinct normalized slugs. -/
theorem claimC6_default_slugs (item : RawItem)
    (h : (effectiveFields item).slug = none ∨ (effectiveFields item).slug = some "") :
    (normalizeItem item).slug = defaultSlug item.id ∧
    ∀ data : List RawItem,
      (∀ it ∈ data,
        (effectiveFields it).slug = none ∨ (effectiveFields it).slug = some "") →
      (data.map RawItem.id).Nodup →
      ((getAllServicesTransform data).map Service.slug).Nodup := by
  constructor
  · rw [normalizeItem_eq]
    show jsStrOr (effectiveFields item).slug (defaultSlug item.id) = _
    exact jsStrOr_of_missing _ h
  · intro data hall hnodup
    have hmap : (getAllServicesTransform data).map Service.slug
        = (data.map RawItem.id).map defaultSlug := by
      rw [getAllServicesTransform, List.map_map, List.map_map]
      refine List.map_congr_left ?_
      intro it hit
      show Service.slug (normalizeItem it) = defaultSlug it.id
      rw [normalizeItem_eq]
      show jsStrOr (effectiveFields it).slug (defaultSlug it.id) = _
      exact jsStrOr_of_missing _ (hall it hit)
    rw [hmap]
    exact hnodup.map defaultSlug_injective

/-- C6 (witness): the amended claim applied to the all-defaults record and
the singleton batch containing it. -/
theorem claimC6_default_slugs_witness :
    (normalizeItem emptyRawItem).slug = defaultSlug 3 ∧
    ((getAllServicesTransform [emptyRawItem]).map Service.slug).Nodup := by
  have h := claimC6_default_slugs emptyRawItem (Or.inl rfl)
  refine ⟨h.1, h.2 [emptyRawItem] ?_ (by decide)⟩
  intro it hit
  rcases List.mem_singleton.mp hit with rfl
  exact Or.inl rfl

/-- C7: shape detection is per-record — a record with a present `attributes`
wrapper is normalized from the wrapper's fields, a record without one from
its top-level fields, and normalization distributes over concatenation, so
shapes may be mixed freely within one batch. -/
theorem claimC7_shape_detection :
    (∀ (item : RawItem) (f : RawFields), item.attributes = some f →
        normalizeItem item = serviceFromFields item.id f) ∧
    (∀ item : RawItem, item.attributes = none →
        normalizeItem item = serviceFromFields item.id item.top) ∧
    (∀ xs ys : List RawItem,
        getAllServicesTransform (xs ++ ys)
          = getAllServicesTransform xs ++ getAllServicesTransform ys) := by
  refine ⟨?_, ?_, ?_⟩
  · intro item f hf
    rw [normalizeItem_eq, effectiveFields, hf]
    rfl
  · intro item hf
    rw [normalizeItem_eq, effectiveFields, hf]
    rfl
  · intro xs ys
    simp [getAllServicesTransform]

/-- C7 (witness): shape detection applied to one wrapped and one flat
concrete record. -/
theorem claimC7_shape_detection_witness :
    normalizeItem wrappedRawItem = serviceFromFields 5 wrappedFields ∧
    normalizeItem emptyRawItem = serviceFromFields 3 emptyRawItem.top :=
  ⟨claimC7_shape_detection.1 wrappedRawItem wrappedFields rfl,
   claimC7_shape_detection.2.1 emptyRawItem rfl⟩

/-- C8: `renderRichText` yields the empty result, without failing, on
`null`/`undefined` and on any truthy non-array input; on an array of
well-formed blocks it emits exactly one paragraph node per block whose tag
is `"paragraph"`, dropping all other blocks while preserving the relative
order of the kept ones. -/
theorem claimC8_renderBlocks :
    renderRichText .nullish = .ok none ∧
    renderRichText .nonArray = .ok none ∧
    ∀ blocks : List RTBlock,
      (∀ b ∈ blocks, b.type = "paragraph" → b.children.isSome) →
      renderRichText (.arr blocks)
        = .ok (some ((blocks.filter (fun b => b.type == "paragraph")).map
            (fun b => RTNode.para ((b.children.getD []).map renderRun)))) :=
  ⟨rfl, rfl, fun _ h => renderRichText_of_wf h⟩

/-- C8 (witness): the renderer applied to a concrete array holding one
paragraph block and one unrecognized block. -/
theorem claimC8_renderBlocks_witness :
    renderRichText (.arr [⟨"paragraph", some [⟨"Hi", true, false⟩]⟩, ⟨"unknown", none⟩])
      = .ok (some [.para [.strong (.text "Hi")]]) := by
  have h := claimC8_renderBlocks.2.2
    [⟨"paragraph", some [⟨"Hi", true, false⟩]⟩, ⟨"unknown", none⟩] (by decide)
  exact h

/-- C9: normalization is idempotent on canonical flat records — a flat
record carrying all `Service` fields, each present and non-empty,
normalizes to a `Service` equal to itself. -/
theorem claimC9_idempotent (s : Service) (ht : s.title ≠ "") (hd : s.description ≠ "")
    (hs : s.slug ≠ "") : normalizeItem (toFlatRaw s) = s := by
  obtain ⟨i, t, d, sl, im⟩ := s
  simp only at ht hd hs
  rw [normalizeItem_eq]
  show serviceFromFields i ⟨some t, some d, some sl, some im⟩ = _
  rw [serviceFromFields]
  rw [jsStrOr_of_present _ ht, jsStrOr_of_present _ hd, jsStrOr_of_present _ hs]
  rfl

/-- C9 (witness): idempotence applied to a concrete canonical service. -/
theorem claimC9_idempotent_witness :
    normalizeItem (toFlatRaw canonicalService) = canonicalService :=
  claimC9_idempotent canonicalService (by decide) (by decide) (by decide)

/-- C10: `block.children` is read without a guard — under the precondition
that every paragraph block carries a run sequence, rendering succeeds and a
paragraph block with runs `runs` yields one inline node per run in order
(empty-text runs included); but an array containing a paragraph block whose
`children` is missing or not a sequence makes `renderRichText` fail rather
than produce empty output. -/
theorem claimC10_children_unguarded :
    (∀ blocks : List RTBlock,
      (∀ b ∈ blocks, b.type = "paragraph" → b.children.isSome) →
      ∃ out, renderRichText (.arr blocks) = .ok out) ∧
    (∀ (b : RTBlock) (runs : List TextRun), b.type = "paragraph" → b.children = some runs →
      renderBlock b = .ok (some (.para (runs.map renderRun))) ∧
      (runs.map renderRun).length = runs.length) ∧
    (∀ (blocks : List RTBlock) (b : RTBlock), b ∈ blocks → b.type = "paragraph" →
      b.children = none → renderRichText (.arr blocks) = .error ()) := by
  refine ⟨?_, ?_, ?_⟩
  · intro blocks h
    exact ⟨_, renderRichText_of_wf h⟩
  · intro b runs ht hc
    exact ⟨renderBlock_paragraph ht hc, by simp⟩
  · intro blocks b hb ht hc
    rw [renderRichText, renderBlockList_error hb ht hc]
    rfl

/-- C10 (witness): a well-formed paragraph (holding an empty-text run)
renders successfully, and a paragraph block with missing `children` makes
the whole render fail. -/
theorem claimC10_children_unguarded_witness :
    (∃ out, renderRichText (.arr [⟨"paragraph", some [⟨"", false, false⟩]⟩]) = .ok out) ∧
    renderRichText (.arr [⟨"paragraph", none⟩]) = .error () :=
  ⟨claimC10_children_unguarded.1 [⟨"paragraph", some [⟨"", false, false⟩]⟩] (by decide),
   claimC10_children_unguarded.2.2 [⟨"paragraph", none⟩] ⟨"paragraph", none⟩
     (List.mem_singleton_self _) rfl rfl⟩

end OlgaFront
